import Mathlib

/-!
Verification of the diff-and-classify-and-compose pipeline of
`comafi_watch.py` (CEDEAR corporate-event monitor).

The Python source is shallowly embedded: each Python function of the core
pipeline (`parse_row`, `classify_event`, `build_message`,
`build_multi_source_message`, the per-source loop body of `main`) becomes a
Lean definition of the same name; the per-section dictionaries become
association lists (keys in `SOURCES` are pairwise distinct, so dict insertion
is modelled as append / in-place replacement), and the fixed five-key
`buckets` dictionary of `build_message` becomes a five-field structure.
Python string primitives (`split`, `strip`, `upper`, slicing, `in`) are
embedded as structurally recursive functions on the character list of the
string, so that every definition evaluates inside the kernel.
External collaborators (the scraper and the Telegram delivery) are
parameters: the scraper is a function from a URL to the list of raw rows it
yielded, the delivery is a function from the message text to
`Except String Unit` (`.error` models a raised exception, e.g. missing
credentials).
-/

/-- Python substring test `needle in hay`, on the character lists. -/
def strIn (needle : List Char) : List Char → Bool
  | [] => needle.isEmpty
  | c :: cs => needle.isPrefixOf (c :: cs) || strIn needle cs

/-- Python `needle in hay` for strings. -/
def pyIn (needle hay : String) : Bool :=
  strIn needle.data hay.data

/-- Python `str.upper` on one character: ASCII letters and the Spanish
accented letters that occur in the classifier's patterns. -/
def pyUpperChar (c : Char) : Char :=
  if c = 'á' then 'Á'
  else if c = 'é' then 'É'
  else if c = 'í' then 'Í'
  else if c = 'ó' then 'Ó'
  else if c = 'ú' then 'Ú'
  else if c = 'ñ' then 'Ñ'
  else if c = 'ü' then 'Ü'
  else c.toUpper

/-- Python `s.upper()`. -/
def pyUpper (s : String) : String :=
  String.mk (s.data.map pyUpperChar)

/-- Split a character list at every character satisfying `p`; adjacent
separators yield empty pieces, like Python `str.split(sep)`. -/
def splitPred (p : Char → Bool) : List Char → List (List Char)
  | [] => [[]]
  | c :: cs =>
    if p c then [] :: splitPred p cs
    else
      match splitPred p cs with
      | [] => [[c]]
      | piece :: rest => (c :: piece) :: rest

/-- Python `s.strip()`: drop whitespace from both ends. -/
def pyStrip (l : List Char) : List Char :=
  ((l.dropWhile Char.isWhitespace).reverse.dropWhile Char.isWhitespace).reverse

/-- `_norm`: `" ".join((s or "").split()).strip()` — split on whitespace runs
(dropping empty fields), re-join with single spaces, strip. -/
def pyNorm (s : String) : String :=
  String.mk (pyStrip (List.intercalate [' ']
    ((splitPred Char.isWhitespace s.data).filter (fun piece => piece ≠ []))))

/-- `parse_row`: split on `'|'`, strip each part, drop every empty part, then
assign positionally (date, ticker, description), defaulting to `""`. -/
def parse_row (row : String) : String × String × String :=
  let parts0 := (splitPred (fun c => c = '|') row.data).map pyStrip
  let parts := parts0.filter (fun p => p ≠ [])
  let fecha := String.mk (parts.getD 0 [])
  let ticker := String.mk (parts.getD 1 [])
  let desc := String.mk (parts.getD 2 [])
  (pyNorm fecha, pyNorm ticker, pyNorm desc)

/-- `classify_event`: ordered substring-rule cascade on the upper-cased
description, returning (category, optional label). -/
def classify_event (desc : String) : String × Option String :=
  let d := pyUpper desc
  if pyIn "DIVIDENDO" d then ("💰 Dividendos", none)
  else if pyIn "DESLISTING" d then ("⚙️ Cambios corporativos", some "Deslisting")
  else if pyIn "CAMBIO DE MERCADO" d || (pyIn "CAMBIO" d && pyIn "MERCADO" d) then
    ("⚙️ Cambios corporativos", some "Cambio de mercado")
  else if pyIn "SPLIT" d then ("⚙️ Cambios corporativos", some "Split")
  else if pyIn "REVERSE" d && pyIn "SPLIT" d then
    ("⚙️ Cambios corporativos", some "Reverse split")
  else if pyIn "AMPLIACIÓN" d || pyIn "AMPLIACION" d then
    ("🏗 Ampliaciones", some "Ampliación de monto máximo")
  else if pyIn "WARRANT" d || pyIn "DISTRIBUCIÓN" d || pyIn "DISTRIBUCION" d then
    ("⚙️ Cambios corporativos", some "Distribución / Warrants")
  else if pyIn "INFORMACIÓN RELEVANTE" d || pyIn "INFORMACION RELEVAVANTE" d
      || pyIn "INFORMACION RELEVANTE" d then
    ("📝 Información relevante", some "Información relevante")
  else ("📌 Otros", some "Evento")

/-- The category display order of `build_message` (`cat_order`). -/
def cat_order : List String :=
  ["💰 Dividendos", "⚙️ Cambios corporativos", "🏗 Ampliaciones",
   "📝 Información relevante", "📌 Otros"]

/-- The `buckets` dictionary of `build_message`: it is created with exactly
the five keys of `cat_order` and only ever indexed by a category returned by
`classify_event`, so it is embedded as a five-field structure. -/
structure Buckets where
  dividendos : List String
  corporativos : List String
  ampliaciones : List String
  info : List String
  otros : List String
deriving DecidableEq

/-- The initial `buckets` dictionary: every category maps to `[]`. -/
def Buckets.init : Buckets :=
  ⟨[], [], [], [], []⟩

/-- `buckets[cat].append(s)`. A category outside `cat_order` cannot occur
(`classify_event` only returns the five categories); the final branch is the
`"📌 Otros"` one. -/
def Buckets.push (b : Buckets) (cat : String) (s : String) : Buckets :=
  if cat = "💰 Dividendos" then { b with dividendos := b.dividendos ++ [s] }
  else if cat = "⚙️ Cambios corporativos" then { b with corporativos := b.corporativos ++ [s] }
  else if cat = "🏗 Ampliaciones" then { b with ampliaciones := b.ampliaciones ++ [s] }
  else if cat = "📝 Información relevante" then { b with info := b.info ++ [s] }
  else { b with otros := b.otros ++ [s] }

/-- `buckets[cat]` lookup, for the message-assembly loop of `build_message`. -/
def Buckets.get (b : Buckets) (cat : String) : List String :=
  if cat = "💰 Dividendos" then b.dividendos
  else if cat = "⚙️ Cambios corporativos" then b.corporativos
  else if cat = "🏗 Ampliaciones" then b.ampliaciones
  else if cat = "📝 Información relevante" then b.info
  else b.otros

/-- Loop state of the bucket-filling loop of `build_message`: the `div_seen`
set (tickers already emitted as dividend bullets), the `other_seen` set
((ticker, label) pairs already emitted in the other categories), and the
buckets. Python sets are embedded as lists queried by membership. -/
structure BMState where
  div_seen : List String
  other_seen : List (String × String)
  buckets : Buckets
deriving DecidableEq

/-- One iteration of the `for row in new_items` loop of `build_message`. -/
def bmStep (st : BMState) (row : String) : BMState :=
  let parsed := parse_row row
  let ticker := parsed.2.1
  let desc := parsed.2.2
  if ticker = "" then st
  else
    let cl := classify_event desc
    let cat := cl.1
    let label := cl.2
    if cat = "💰 Dividendos" then
      if ticker ∈ st.div_seen then st
      else
        { st with div_seen := ticker :: st.div_seen,
                  buckets := st.buckets.push cat ("• " ++ ticker) }
    else
      let lab := label.getD "Evento"
      if (ticker, lab) ∈ st.other_seen then st
      else
        { st with other_seen := (ticker, lab) :: st.other_seen,
                  buckets := st.buckets.push cat ("• " ++ ticker ++ " – " ++ lab) }

/-- The bucket-filling loop of `build_message` over all new items. -/
def buildBuckets (new_items : List String) : BMState :=
  new_items.foldl bmStep ⟨[], [], Buckets.init⟩

/-- Join lines with a newline (`"\n".join(lines)`), on character lists so the
kernel can evaluate it. -/
def joinNl (lines : List String) : String :=
  String.mk (List.intercalate ['\n'] (lines.map String.data))

/-- One section block of `build_message`: title, blank line, up to
`max_per_cat` items, overflow marker, blank line. Emits nothing when the
bucket is empty. -/
def bmSection (b : Buckets) (max_per_cat : Nat) (cat : String) : List String :=
  let items := b.get cat
  if items.isEmpty then []
  else
    [cat, ""] ++ items.take max_per_cat ++
      (if max_per_cat < items.length then
        ["• … y " ++ String.mk (Nat.toDigits 10 (items.length - max_per_cat)) ++ " más"]
      else []) ++ [""]

/-- `build_message`: the secondary single-source builder. Returns `none`
when no category ended up non-empty (`any_section` stays false). -/
def build_message (new_items : List String) (now_str : String) (url : String)
    (max_per_cat : Nat) : Option String :=
  let st := buildBuckets new_items
  let b := st.buckets
  if cat_order.all (fun cat => (b.get cat).isEmpty) then none
  else
    some (String.mk (pyStrip (joinNl
      (["🔔 Nuevos eventos CEDEAR", "", "📅 " ++ now_str ++ " AR", ""] ++
        (cat_order.map (bmSection b max_per_cat)).flatten ++
        ["Fuente: " ++ url])).data))

/-- A per-section result of `main`'s loop: `results[section_title] =
{"items": bullets, "url": url}`. The titles in `SOURCES` are pairwise
distinct, so the `results` dict is embedded as a list in insertion order. -/
structure Section where
  title : String
  items : List String
  url : String
deriving DecidableEq

/-- The seen-state dictionary (`seen.json` content): source URL to the list
of raw rows observed on the last run, embedded as an association list in
insertion order. -/
abbrev SeenDict : Type := List (String × List String)

/-- `seen_dict.get(url, [])`: first entry with the given key, default `[]`. -/
def dget : SeenDict → String → List String
  | [], _ => []
  | p :: t, k => if p.1 = k then p.2 else dget t k

/-- `seen_dict[url] = rows`: replace in place when the key exists, else
append (Python dict insertion semantics). -/
def dset (d : SeenDict) (k : String) (v : List String) : SeenDict :=
  if d.any (fun p => p.1 = k) then
    d.map (fun p => if p.1 = k then (k, v) else p)
  else d ++ [(k, v)]

/-- The diff of `main`: `new_rows = [r for r in current_rows if r not in
seen_set]` where `seen_set = set(seen_list)`. -/
def diffRows (seen_list : List String) (current_rows : List String) : List String :=
  current_rows.filter (fun r => r ∉ seen_list)

/-- One bullet of `main`'s per-source loop: parsed short form when the ticker
is non-empty, otherwise the raw row. The description is truncated to 87
characters plus `"..."` when longer than 90. -/
def rowBullet (row : String) : String :=
  let parsed := parse_row row
  let fecha := parsed.1
  let ticker := parsed.2.1
  let desc := parsed.2.2
  if ticker ≠ "" then
    let short := if 90 < desc.data.length then String.mk (desc.data.take 87) ++ "..." else desc
    "• " ++ fecha ++ " | " ++ ticker ++ " | " ++ short
  else "• " ++ row

/-- The body of `main`'s `for section_title, url in SOURCES.items()` loop:
an empty fetch is logged and recorded as an empty section, leaving the
seen-state untouched; otherwise the new rows are diffed against the stored
list, turned into bullets, and the seen-state entry is replaced by the full
fresh batch. -/
def sourceStep (fetch : String → List String) (acc : SeenDict × List Section)
    (src : String × String) : SeenDict × List Section :=
  let seen_dict := acc.1
  let results := acc.2
  let section_title := src.1
  let url := src.2
  let current_rows := fetch url
  if current_rows.isEmpty then
    (seen_dict, results ++ [⟨section_title, [], url⟩])
  else
    let seen_list := dget seen_dict url
    let new_rows := diffRows seen_list current_rows
    let bullets := new_rows.map rowBullet
    (dset seen_dict url current_rows, results ++ [⟨section_title, bullets, url⟩])

/-- The `SOURCES` dict: section title to URL, in declaration order. -/
def SOURCES : List (String × String) :=
  [("📌 Últimos eventos corporativos",
    "https://www.comafi.com.ar/custodiaglobal/eventos-corporativos.aspx"),
   ("💰 Últimos avisos de dividendos",
    "https://www.comafi.com.ar/custodiaglobal/dividendos.aspx"),
   ("🏦 Últimos pagos",
    "https://www.comafi.com.ar/custodiaglobal/pagos.aspx")]

/-- The whole per-source loop of `main`, over every configured source. -/
def processSources (fetch : String → List String) (seen0 : SeenDict) :
    SeenDict × List Section :=
  SOURCES.foldl (sourceStep fetch) (seen0, [])

/-- One section block of `build_multi_source_message`: title, blank line, up
to 20 items, overflow marker, blank line, source line, blank line. Emits
nothing when the section has no items. -/
def msSection (s : Section) : List String :=
  if s.items.isEmpty then []
  else
    [s.title, ""] ++ s.items.take 20 ++
      (if 20 < s.items.length then
        ["• … y " ++ String.mk (Nat.toDigits 10 (s.items.length - 20)) ++ " más"]
      else []) ++ ["", "Fuente: " ++ s.url, ""]

/-- `build_multi_source_message`: `none` when no section has items, otherwise
the header, the non-empty section blocks in insertion order, and the fixed
signature block, joined and stripped. -/
def build_multi_source_message (results : List Section) (now_str : String) :
    Option String :=
  if results.all (fun s => s.items.isEmpty) then none
  else
    some (String.mk (pyStrip (joinNl
      (["🔔 Novedades CEDEAR", "", "📅 " ++ now_str ++ " AR", ""] ++
        (results.map msSection).flatten ++
        ["—", "Equipo RIG Valores", "",
         "Este es un mensaje automático generado por nuestro sistema de monitoreo.",
         "Ante cualquier inquietud, contacte con su asesor.", ""])).data))

/-- Observable effects of one run of `main` that the spec talks about:
a successful Telegram delivery, and a `save_seen` call with the dictionary
that was written. -/
inductive Event where
  | sent : String → Event
  | saved : SeenDict → Event
deriving DecidableEq

/-- `main`: process every source, compose the aggregate message, deliver it
when non-empty, then persist the seen-state. `send` models `send_telegram`;
`.error e` models an uncaught exception (e.g. missing credentials), which
aborts the run before the `save_seen` call on the last line of `main`.
Returns the performed effects and the uncaught exception, if any. -/
def main_run (fetch : String → List String) (send : String → Except String Unit)
    (seen0 : SeenDict) (now : String) : List Event × Option String :=
  let res := processSources fetch seen0
  let seen1 := res.1
  let results := res.2
  match build_multi_source_message results now with
  | none => ([Event.saved seen1], none)
  | some msg =>
    match send msg with
    | .error e => ([], some e)
    | .ok _ => ([Event.sent msg, Event.saved seen1], none)

/-- The dividend bullet format of `build_message`: `"• {ticker}"`. -/
def divBullet (t : String) : String := "• " ++ t

/-- The non-dividend bullet format of `build_message`:
`"• {ticker} – {label}"`, keyed by the (ticker, label) pair. -/
def othBullet (k : String × String) : String := "• " ++ k.1 ++ " – " ++ k.2

/-- Invariant of the bucket-filling loop of `build_message`: every bucket is
the bullet rendering of a list of pairwise distinct keys, each of which has
been recorded in the corresponding seen set. -/
def BMInv (st : BMState) : Prop :=
  (∃ ts : List String, st.buckets.dividendos = ts.map divBullet ∧ ts.Nodup ∧
    ∀ t ∈ ts, t ∈ st.div_seen) ∧
  (∃ ks : List (String × String), st.buckets.corporativos = ks.map othBullet ∧
    ks.Nodup ∧ ∀ k ∈ ks, k ∈ st.other_seen) ∧
  (∃ ks : List (String × String), st.buckets.ampliaciones = ks.map othBullet ∧
    ks.Nodup ∧ ∀ k ∈ ks, k ∈ st.other_seen) ∧
  (∃ ks : List (String × String), st.buckets.info = ks.map othBullet ∧
    ks.Nodup ∧ ∀ k ∈ ks, k ∈ st.other_seen) ∧
  (∃ ks : List (String × String), st.buckets.otros = ks.map othBullet ∧
    ks.Nodup ∧ ∀ k ∈ ks, k ∈ st.other_seen)

theorem dget_append_of_forall_ne (d e : SeenDict) (k : String)
    (h : ∀ p ∈ d, p.1 ≠ k) : dget (d ++ e) k = dget e k := by
  induction d with
  | nil => simp
  | cons p t ih =>
    rw [List.cons_append]
    rw [show dget ((p :: (t ++ e))) k = if p.1 = k then p.2 else dget (t ++ e) k from rfl]
    rw [if_neg (h p (List.mem_cons_self p t))]
    exact ih (fun q hq => h q (List.mem_cons_of_mem p hq))

theorem dget_map_dset_of_any (d : SeenDict) (k : String) (v : List String)
    (h : d.any (fun p => p.1 = k) = true) :
    dget (d.map (fun p => if p.1 = k then (k, v) else p)) k = v := by
  induction d with
  | nil => simp at h
  | cons p t ih =>
    rw [List.map_cons]
    by_cases hp : p.1 = k
    · rw [if_pos hp]
      rw [show dget ((k, v) :: t.map (fun p => if p.1 = k then (k, v) else p)) k
            = if (k, v).1 = k then v else dget (t.map (fun p => if p.1 = k then (k, v) else p)) k
          from rfl]
      rw [if_pos rfl]
    · rw [if_neg hp]
      rw [show dget (p :: t.map (fun p => if p.1 = k then (k, v) else p)) k
            = if p.1 = k then p.2 else dget (t.map (fun p => if p.1 = k then (k, v) else p)) k
          from rfl]
      rw [if_neg hp]
      apply ih
      simp only [List.any_cons, Bool.or_eq_true, decide_eq_true_eq] at h
      exact h.resolve_left hp

theorem dget_map_dset_ne (d : SeenDict) (k j : String) (v : List String)
    (hjk : j ≠ k) :
    dget (d.map (fun p => if p.1 = k then (k, v) else p)) j = dget d j := by
  induction d with
  | nil => simp
  | cons p t ih =>
    rw [List.map_cons]
    by_cases hp : p.1 = k
    · rw [if_pos hp]
      rw [show dget ((k, v) :: t.map (fun p => if p.1 = k then (k, v) else p)) j
            = if (k, v).1 = j then v else dget (t.map (fun p => if p.1 = k then (k, v) else p)) j
          from rfl]
      rw [show dget (p :: t) j = if p.1 = j then p.2 else dget t j from rfl]
      rw [if_neg (fun hc : k = j => hjk hc.symm)]
      rw [if_neg (fun hc : p.1 = j => hjk (hc ▸ hp))]
      exact ih
    · rw [if_neg hp]
      rw [show dget (p :: t.map (fun p => if p.1 = k then (k, v) else p)) j
            = if p.1 = j then p.2 else dget (t.map (fun p => if p.1 = k then (k, v) else p)) j
          from rfl]
      rw [show dget (p :: t) j = if p.1 = j then p.2 else dget t j from rfl]
      by_cases hj : p.1 = j
      · rw [if_pos hj, if_pos hj]
      · rw [if_neg hj, if_neg hj]
        exact ih

/-- Updating a key and reading it back yields the new value. -/
theorem dget_dset_self (d : SeenDict) (k : String) (v : List String) :
    dget (dset d k v) k = v := by
  unfold dset
  by_cases h : d.any (fun p => p.1 = k) = true
  · rw [if_pos h]
    exact dget_map_dset_of_any d k v h
  · rw [if_neg h]
    have hall : ∀ p ∈ d, p.1 ≠ k := by
      intro p hp hc
      exact h (List.any_eq_true.mpr ⟨p, hp, by simp [hc]⟩)
    rw [dget_append_of_forall_ne d [(k, v)] k hall]
    rw [show dget [(k, v)] k = if (k, v).1 = k then v else dget [] k from rfl]
    rw [if_pos rfl]

theorem dget_append_single_ne (d : SeenDict) (k j : String) (v : List String)
    (hjk : j ≠ k) : dget (d ++ [(k, v)]) j = dget d j := by
  induction d with
  | nil =>
    rw [List.nil_append]
    rw [show dget [(k, v)] j = if (k, v).1 = j then v else dget [] j from rfl]
    rw [if_neg (fun hc : k = j => hjk hc.symm)]
  | cons p t ih =>
    rw [List.cons_append]
    rw [show dget (p :: (t ++ [(k, v)])) j = if p.1 = j then p.2 else dget (t ++ [(k, v)]) j
        from rfl]
    rw [show dget (p :: t) j = if p.1 = j then p.2 else dget t j from rfl]
    by_cases hj : p.1 = j
    · rw [if_pos hj, if_pos hj]
    · rw [if_neg hj, if_neg hj]
      exact ih

/-- Updating a key leaves every other key's value unchanged. -/
theorem dget_dset_ne (d : SeenDict) (k j : String) (v : List String)
    (hjk : j ≠ k) :
    dget (dset d k v) j = dget d j := by
  unfold dset
  by_cases h : d.any (fun p => p.1 = k) = true
  · rw [if_pos h]
    exact dget_map_dset_ne d k j v hjk
  · rw [if_neg h]
    exact dget_append_single_ne d k j v hjk

theorem sourceStep_fst (fetch : String → List String) (acc : SeenDict × List Section)
    (src : String × String) :
    (sourceStep fetch acc src).1 =
      if (fetch src.2).isEmpty then acc.1 else dset acc.1 src.2 (fetch src.2) := by
  by_cases he : (fetch src.2).isEmpty = true
  · simp [sourceStep, he]
  · simp [sourceStep, he]

theorem sourceStep_snd (fetch : String → List String) (acc : SeenDict × List Section)
    (src : String × String) :
    (sourceStep fetch acc src).2 = acc.2 ++
      [⟨src.1,
        if (fetch src.2).isEmpty then []
        else (diffRows (dget acc.1 src.2) (fetch src.2)).map rowBullet,
        src.2⟩] := by
  by_cases he : (fetch src.2).isEmpty = true
  · simp [sourceStep, he]
  · simp [sourceStep, he]

theorem sourceStep_dget_ne (fetch : String → List String) (acc : SeenDict × List Section)
    (src : String × String) (u : String) (hu : u ≠ src.2) :
    dget (sourceStep fetch acc src).1 u = dget acc.1 u := by
  rw [sourceStep_fst]
  by_cases he : (fetch src.2).isEmpty = true
  · rw [if_pos he]
  · rw [if_neg he]
    exact dget_dset_ne acc.1 src.2 u (fetch src.2) hu

theorem foldl_dget_untouched (fetch : String → List String)
    (srcs : List (String × String)) (acc : SeenDict × List Section) (u : String)
    (h : ∀ p ∈ srcs, p.2 ≠ u) :
    dget (srcs.foldl (sourceStep fetch) acc).1 u = dget acc.1 u := by
  induction srcs generalizing acc with
  | nil => rfl
  | cons s rest ih =>
    rw [List.foldl_cons]
    rw [ih _ (fun p hp => h p (List.mem_cons_of_mem s hp))]
    exact sourceStep_dget_ne fetch acc s u
      (fun hc => h s (List.mem_cons_self s rest) hc.symm)

theorem foldl_dget_mem (fetch : String → List String)
    (srcs : List (String × String)) (acc : SeenDict × List Section) (t u : String)
    (hnd : (srcs.map Prod.snd).Nodup) (hmem : (t, u) ∈ srcs) :
    dget (srcs.foldl (sourceStep fetch) acc).1 u =
      if fetch u = [] then dget acc.1 u else fetch u := by
  induction srcs generalizing acc with
  | nil => cases hmem
  | cons s rest ih =>
    rw [List.map_cons, List.nodup_cons] at hnd
    rw [List.foldl_cons]
    rcases List.mem_cons.mp hmem with heq | hrest
    · have hu : s.2 = u := by rw [← heq]
      have hnotin : ∀ p ∈ rest, p.2 ≠ u := by
        intro p hp hc
        exact hnd.1 (hu ▸ hc ▸ List.mem_map_of_mem Prod.snd hp)
      rw [foldl_dget_untouched fetch rest _ u hnotin]
      rw [sourceStep_fst, hu]
      by_cases he : fetch u = []
      · rw [if_pos (by rw [he]; rfl), if_pos he]
      · rw [if_neg (by simpa [List.isEmpty_iff] using he), if_neg he]
        exact dget_dset_self acc.1 u (fetch u)
    · have hne : u ≠ s.2 := by
        intro hc
        exact hnd.1 (hc ▸ List.mem_map_of_mem Prod.snd hrest)
      rw [ih _ hnd.2 hrest]
      rw [sourceStep_dget_ne fetch acc s u hne]

theorem foldl_results_mono (fetch : String → List String)
    (srcs : List (String × String)) (acc : SeenDict × List Section) (s : Section)
    (h : s ∈ acc.2) : s ∈ (srcs.foldl (sourceStep fetch) acc).2 := by
  induction srcs generalizing acc with
  | nil => exact h
  | cons s0 rest ih =>
    rw [List.foldl_cons]
    apply ih
    rw [sourceStep_snd]
    exact List.mem_append_left _ h

theorem foldl_results_empty_fetch (fetch : String → List String)
    (srcs : List (String × String)) (acc : SeenDict × List Section) (t u : String)
    (hmem : (t, u) ∈ srcs) (he : fetch u = []) :
    (⟨t, [], u⟩ : Section) ∈ (srcs.foldl (sourceStep fetch) acc).2 := by
  induction srcs generalizing acc with
  | nil => cases hmem
  | cons s rest ih =>
    rw [List.foldl_cons]
    rcases List.mem_cons.mp hmem with heq | hrest
    · apply foldl_results_mono
      rw [sourceStep_snd, ← heq]
      simp [he]
    · exact ih _ hrest

theorem diffRows_nil_right (seen : List String) : diffRows seen [] = [] := rfl

theorem diffRows_mem (seen l : List String) (r : String) :
    r ∈ diffRows seen l ↔ r ∈ l ∧ r ∉ seen := by
  simp [diffRows, List.mem_filter]

theorem diffRows_self (l : List String) : diffRows l l = [] := by
  unfold diffRows
  rw [List.filter_eq_nil_iff]
  intro a ha
  simp [ha]

theorem foldl_results_all_empty (fetch : String → List String)
    (srcs : List (String × String)) (acc : SeenDict × List Section)
    (hnd : (srcs.map Prod.snd).Nodup)
    (hdiff : ∀ p ∈ srcs, diffRows (dget acc.1 p.2) (fetch p.2) = [])
    (hacc : ∀ s ∈ acc.2, s.items = []) :
    ∀ s ∈ (srcs.foldl (sourceStep fetch) acc).2, s.items = [] := by
  induction srcs generalizing acc with
  | nil => exact hacc
  | cons s0 rest ih =>
    rw [List.map_cons, List.nodup_cons] at hnd
    rw [List.foldl_cons]
    apply ih _ hnd.2
    · intro p hp
      have hne : p.2 ≠ s0.2 := by
        intro hc
        exact hnd.1 (hc ▸ List.mem_map_of_mem Prod.snd hp)
      rw [sourceStep_dget_ne fetch acc s0 p.2 hne]
      exact hdiff p (List.mem_cons_of_mem s0 hp)
    · intro s hs
      rw [sourceStep_snd] at hs
      rcases List.mem_append.mp hs with h1 | h2
      · exact hacc s h1
      · rw [List.mem_singleton] at h2
        rw [h2]
        show (if (fetch s0.2).isEmpty = true then []
          else List.map rowBullet (diffRows (dget acc.1 s0.2) (fetch s0.2))) = []
        by_cases he : (fetch s0.2).isEmpty = true
        · rw [if_pos he]
        · rw [if_neg he, hdiff s0 (List.mem_cons_self s0 rest)]
          rfl

/-- C4: a description whose upper-cased form contains "SPLIT" and matches no
earlier rule (no "DIVIDENDO", no "DESLISTING", no "CAMBIO DE MERCADO", and
not both "CAMBIO" and "MERCADO") classifies as (Cambios corporativos,
"Split"); in particular "SPLIT REVERSE ANUNCIADO" gets label "Split", and the
"Reverse split" branch is unreachable: no description at all ever yields the
label "Reverse split". -/
theorem classify_split_precedence :
    (∀ d : String,
      pyIn "SPLIT" (pyUpper d) = true →
      pyIn "DIVIDENDO" (pyUpper d) = false →
      pyIn "DESLISTING" (pyUpper d) = false →
      pyIn "CAMBIO DE MERCADO" (pyUpper d) = false →
      (pyIn "CAMBIO" (pyUpper d) && pyIn "MERCADO" (pyUpper d)) = false →
      classify_event d = ("⚙️ Cambios corporativos", some "Split")) ∧
    classify_event "SPLIT REVERSE ANUNCIADO" = ("⚙️ Cambios corporativos", some "Split") ∧
    (∀ d : String, (classify_event d).2 ≠ some "Reverse split") := by
  refine ⟨?_, by decide, ?_⟩
  · intro d h1 h2 h3 h4 h5
    simp only [classify_event, h1, h2, h3, h4, h5]
    simp
  · intro d
    simp only [classify_event]
    split_ifs with h1 h2 h3 h4 h5 <;> simp_all

/-- C4 witness: the general rule of `classify_split_precedence` applied to
the concrete description "split anunciado". -/
theorem classify_split_precedence_witness :
    classify_event "split anunciado" = ("⚙️ Cambios corporativos", some "Split") :=
  classify_split_precedence.1 "split anunciado"
    (by decide) (by decide) (by decide) (by decide) (by decide)

/-- C5 counterexample: the claim says the label for a "DESLISTING"
description is "Delisting", but the code spells it "Deslisting": on the
description "DESLISTING", the rule's hypotheses hold yet the result label is
"Deslisting", not "Delisting". -/
theorem classify_deslisting_label_cex :
    pyIn "DESLISTING" (pyUpper "DESLISTING") = true ∧
    pyIn "DIVIDENDO" (pyUpper "DESLISTING") = false ∧
    classify_event "DESLISTING" = ("⚙️ Cambios corporativos", some "Deslisting") ∧
    classify_event "DESLISTING" ≠ ("⚙️ Cambios corporativos", some "Delisting") := by
  refine ⟨by decide, by decide, by decide, by decide⟩

/-- C5 amended: a description whose upper-cased form contains "DESLISTING"
and not "DIVIDENDO" classifies as (Cambios corporativos, "Deslisting") — the
label is spelled "Deslisting" in the code, not "Delisting". -/
theorem classify_deslisting_amended (d : String)
    (h1 : pyIn "DESLISTING" (pyUpper d) = true)
    (h2 : pyIn "DIVIDENDO" (pyUpper d) = false) :
    classify_event d = ("⚙️ Cambios corporativos", some "Deslisting") := by
  simp only [classify_event, h1, h2]
  simp

/-- C5 witness: `classify_deslisting_amended` applied to the concrete
description "deslisting anunciado". -/
theorem classify_deslisting_amended_witness :
    classify_event "deslisting anunciado" = ("⚙️ Cambios corporativos", some "Deslisting") :=
  classify_deslisting_amended "deslisting anunciado" (by decide) (by decide)

/-- C9: `classify_event` returns no label exactly when the category is
Dividendos, and every label it does return is a non-empty string. -/
theorem classify_label_none_iff_dividends (d : String) :
    ((classify_event d).2 = none ↔ (classify_event d).1 = "💰 Dividendos") ∧
    (∀ lab : String, (classify_event d).2 = some lab → lab ≠ "") := by
  simp only [classify_event]
  split_ifs <;>
    exact ⟨by decide, fun lab h => by
      first
        | exact h.elim
        | exact Option.noConfusion h
        | (injection h with h2; subst h2; decide)⟩

/-- C9 witness: `classify_label_none_iff_dividends` at the concrete
description "PAGO", which falls through to the (Otros, "Evento") branch. -/
theorem classify_label_none_iff_dividends_witness :
    ((classify_event "PAGO").2 = none ↔ (classify_event "PAGO").1 = "💰 Dividendos") ∧
    (classify_event "PAGO").2 = some "Evento" ∧ "Evento" ≠ "" :=
  ⟨(classify_label_none_iff_dividends "PAGO").1, by decide,
   (classify_label_none_iff_dividends "PAGO").2 "Evento" (by decide)⟩

/-- C10: `parse_row` drops every empty segment — interior ones included —
before positional assignment: the parts list it assigns from never contains
an empty segment, and the row "10/05/24||SOME DESCRIPTION" parses to date
"10/05/24", ticker "SOME DESCRIPTION" and empty description (the interior
empty cell shifts later cells leftward). -/
theorem parse_row_drops_interior_empty :
    (∀ (row : String) (p : List Char),
      p ∈ ((splitPred (fun c => c = '|') row.data).map pyStrip).filter (fun q => q ≠ []) →
      p ≠ []) ∧
    parse_row "10/05/24||SOME DESCRIPTION" = ("10/05/24", "SOME DESCRIPTION", "") := by
  refine ⟨?_, by decide⟩
  intro row p hp
  rw [List.mem_filter] at hp
  exact of_decide_eq_true hp.2

/-- C10 witness: the no-empty-segment fact of `parse_row_drops_interior_empty`
at the concrete row "a||b", whose parts list is `[[a], [b]]`. -/
theorem parse_row_drops_interior_empty_witness :
    (['a'] ∈ ((splitPred (fun c => c = '|') "a||b".data).map pyStrip).filter
        (fun q => q ≠ [])) ∧ ['a'] ≠ [] :=
  ⟨by decide, parse_row_drops_interior_empty.1 "a||b" ['a'] (by decide)⟩

theorem main_run_eq (fetch : String → List String) (send : String → Except String Unit)
    (seen0 : SeenDict) (now : String) :
    main_run fetch send seen0 now =
      match build_multi_source_message (processSources fetch seen0).2 now with
      | none => ([Event.saved (processSources fetch seen0).1], none)
      | some msg =>
        match send msg with
        | .error e => ([], some e)
        | .ok _ => ([Event.sent msg, Event.saved (processSources fetch seen0).1], none) :=
  rfl

theorem main_run_none (fetch : String → List String) (send : String → Except String Unit)
    (seen0 : SeenDict) (now : String)
    (h : build_multi_source_message (processSources fetch seen0).2 now = none) :
    main_run fetch send seen0 now = ([Event.saved (processSources fetch seen0).1], none) := by
  rw [main_run_eq, h]

theorem main_run_send_error (fetch : String → List String)
    (send : String → Except String Unit) (seen0 : SeenDict) (now m e : String)
    (hm : build_multi_source_message (processSources fetch seen0).2 now = some m)
    (he : send m = .error e) :
    main_run fetch send seen0 now = ([], some e) := by
  rw [main_run_eq, hm]
  simp only [he]

theorem main_run_send_ok (fetch : String → List String)
    (send : String → Except String Unit) (seen0 : SeenDict) (now m : String)
    (hm : build_multi_source_message (processSources fetch seen0).2 now = some m)
    (he : send m = .ok ()) :
    main_run fetch send seen0 now =
      ([Event.sent m, Event.saved (processSources fetch seen0).1], none) := by
  rw [main_run_eq, hm]
  simp only [he]

/-- C2: the per-source diff yields exactly the fresh rows not contained (by
exact string equality) in the stored seen list: membership is fresh-and-not
-seen, the order of the fresh sequence is preserved (the new rows are a
sublist of the fresh rows), seen rows are dropped entirely and unseen rows
keep their multiplicity, and the updated seen-state entry is the full fresh
batch — a complete replacement. All of this is computed before the send is
even attempted (`sourceStep` does not depend on the delivery at all). -/
theorem diff_and_replace (fetch : String → List String) (seen : SeenDict)
    (results : List Section) (title url : String) (hne : fetch url ≠ []) :
    (∀ r : String, r ∈ diffRows (dget seen url) (fetch url) ↔
      r ∈ fetch url ∧ r ∉ dget seen url) ∧
    (diffRows (dget seen url) (fetch url)).Sublist (fetch url) ∧
    (∀ r : String, r ∈ dget seen url →
      (diffRows (dget seen url) (fetch url)).count r = 0) ∧
    (∀ r : String, r ∉ dget seen url →
      (diffRows (dget seen url) (fetch url)).count r = (fetch url).count r) ∧
    dget (sourceStep fetch (seen, results) (title, url)).1 url = fetch url := by
  refine ⟨diffRows_mem _ _, List.filter_sublist _, ?_, ?_, ?_⟩
  · intro r hr
    rw [List.count_eq_zero]
    intro hc
    exact ((diffRows_mem _ _ r).mp hc).2 hr
  · intro r hr
    unfold diffRows
    rw [List.count_filter]
    simp [hr]
  · rw [sourceStep_fst, if_neg (by simpa [List.isEmpty_iff] using hne)]
    exact dget_dset_self seen url (fetch url)

/-- C2 witness: `diff_and_replace` on a concrete source with one fresh row
and empty prior state. -/
theorem diff_and_replace_witness :
    dget (sourceStep (fun _ => ["r1"]) ([], []) ("t", "u")).1 "u" = ["r1"] :=
  (diff_and_replace (fun _ => ["r1"]) [] [] "t" "u" (by decide)).2.2.2.2

/-- C8: a source whose fetch yields no rows is recorded with an empty item
list, its seen-state entry is left unchanged, and the run still updates every
source whose fetch yielded rows to the full fresh batch. -/
theorem fetch_failure_frame (fetch : String → List String) (seen0 : SeenDict)
    (t u : String) (hmem : (t, u) ∈ SOURCES) (hempty : fetch u = []) :
    dget (processSources fetch seen0).1 u = dget seen0 u ∧
    (⟨t, [], u⟩ : Section) ∈ (processSources fetch seen0).2 ∧
    (∀ t2 u2 : String, (t2, u2) ∈ SOURCES → fetch u2 ≠ [] →
      dget (processSources fetch seen0).1 u2 = fetch u2) := by
  have hnd : (SOURCES.map Prod.snd).Nodup := by decide
  refine ⟨?_, ?_, ?_⟩
  · rw [show processSources fetch seen0 = SOURCES.foldl (sourceStep fetch) (seen0, [])
        from rfl]
    rw [foldl_dget_mem fetch SOURCES (seen0, []) t u hnd hmem, if_pos hempty]
  · exact foldl_results_empty_fetch fetch SOURCES (seen0, []) t u hmem hempty
  · intro t2 u2 hmem2 hne2
    rw [show processSources fetch seen0 = SOURCES.foldl (sourceStep fetch) (seen0, [])
        from rfl]
    rw [foldl_dget_mem fetch SOURCES (seen0, []) t2 u2 hnd hmem2, if_neg hne2]

/-- C8 witness: `fetch_failure_frame` with a fetch that yields nothing for
the first source and one row for the second. -/
theorem fetch_failure_frame_witness :
    dget (processSources
      (fun u => if u = "https://www.comafi.com.ar/custodiaglobal/dividendos.aspx"
        then ["row1"] else []) []).1
      "https://www.comafi.com.ar/custodiaglobal/eventos-corporativos.aspx" =
    dget [] "https://www.comafi.com.ar/custodiaglobal/eventos-corporativos.aspx" :=
  (fetch_failure_frame
    (fun u => if u = "https://www.comafi.com.ar/custodiaglobal/dividendos.aspx"
      then ["row1"] else []) []
    "📌 Últimos eventos corporativos"
    "https://www.comafi.com.ar/custodiaglobal/eventos-corporativos.aspx"
    (by decide) (by decide)).1

/-- C6: the aggregate composition returns none exactly when every section's
item list is empty, and in that case `main` performs no delivery call: no
sent event appears among the run's effects. -/
theorem compose_none_iff_no_items :
    (∀ (results : List Section) (now : String),
      build_multi_source_message results now = none ↔ ∀ s ∈ results, s.items = []) ∧
    (∀ (fetch : String → List String) (send : String → Except String Unit)
        (seen0 : SeenDict) (now m : String),
      build_multi_source_message (processSources fetch seen0).2 now = none →
      Event.sent m ∉ (main_run fetch send seen0 now).1) := by
  constructor
  · intro results now
    unfold build_multi_source_message
    by_cases h : results.all (fun s => s.items.isEmpty) = true
    · rw [if_pos h]
      constructor
      · intro _ s hs
        have := List.all_eq_true.mp h s hs
        simpa [List.isEmpty_iff] using this
      · intro _
        rfl
    · rw [if_neg h]
      constructor
      · intro hc
        cases hc
      · intro hall
        exfalso
        apply h
        rw [List.all_eq_true]
        intro s hs
        simp [List.isEmpty_iff, hall s hs]
  · intro fetch send seen0 now m hnone
    rw [main_run_none fetch send seen0 now hnone]
    simp

/-- C6 witness: with every fetch empty the composition is none, and the run
delivers nothing. -/
theorem compose_none_iff_no_items_witness :
    build_multi_source_message (processSources (fun _ => []) []).2 "t" = none ∧
    Event.sent "x" ∉ (main_run (fun _ => []) (fun _ => .ok ()) [] "t").1 :=
  ⟨(compose_none_iff_no_items.1 (processSources (fun _ => []) []).2 "t").mpr (by decide),
   compose_none_iff_no_items.2 (fun _ => []) (fun _ => .ok ()) [] "t" "x"
     ((compose_none_iff_no_items.1 (processSources (fun _ => []) []).2 "t").mpr (by decide))⟩

/-- C3: running the pipeline a second time against the state produced by the
first run, with the fetched rows unchanged for every source, yields zero new
rows for every source, an all-empty section list, a none composition, and a
run that saves state without sending anything. -/
theorem second_run_silent (fetch : String → List String)
    (send : String → Except String Unit) (seen0 : SeenDict) (now : String) :
    (∀ p : String × String, p ∈ SOURCES →
      diffRows (dget (processSources fetch seen0).1 p.2) (fetch p.2) = []) ∧
    (∀ s ∈ (processSources fetch (processSources fetch seen0).1).2, s.items = []) ∧
    build_multi_source_message
      (processSources fetch (processSources fetch seen0).1).2 now = none ∧
    main_run fetch send (processSources fetch seen0).1 now =
      ([Event.saved (processSources fetch (processSources fetch seen0).1).1], none) := by
  have hnd : (SOURCES.map Prod.snd).Nodup := by decide
  have hdiff : ∀ p : String × String, p ∈ SOURCES →
      diffRows (dget (processSources fetch seen0).1 p.2) (fetch p.2) = [] := by
    intro p hp
    rw [show processSources fetch seen0 = SOURCES.foldl (sourceStep fetch) (seen0, [])
        from rfl]
    rw [foldl_dget_mem fetch SOURCES (seen0, []) p.1 p.2 hnd (by simpa using hp)]
    by_cases he : fetch p.2 = []
    · rw [if_pos he, he]
      rfl
    · rw [if_neg he]
      exact diffRows_self (fetch p.2)
  have hempty : ∀ s ∈ (processSources fetch (processSources fetch seen0).1).2,
      s.items = [] :=
    foldl_results_all_empty fetch SOURCES ((processSources fetch seen0).1, []) hnd
      (fun p hp => hdiff p hp) (fun s hs => absurd hs (List.not_mem_nil s))
  have hnone : build_multi_source_message
      (processSources fetch (processSources fetch seen0).1).2 now = none := by
    unfold build_multi_source_message
    rw [if_pos (List.all_eq_true.mpr (fun s hs => by simp [List.isEmpty_iff, hempty s hs]))]
  exact ⟨hdiff, hempty, hnone,
    main_run_none fetch send (processSources fetch seen0).1 now hnone⟩

/-- C3 witness: `second_run_silent` instantiated with a fetch that yields one
row for every source, its first conjunct applied at the first source. -/
theorem second_run_silent_witness :
    diffRows
      (dget (processSources (fun _ => ["r1"]) []).1
        "https://www.comafi.com.ar/custodiaglobal/eventos-corporativos.aspx")
      ["r1"] = [] :=
  (second_run_silent (fun _ => ["r1"]) (fun _ => .ok ()) [] "t").1
    ("📌 Últimos eventos corporativos",
     "https://www.comafi.com.ar/custodiaglobal/eventos-corporativos.aspx")
    (by decide)

/-- C1 counterexample: with a fresh row to announce and a delivery that
raises (e.g. missing credentials), the run aborts with the uncaught
exception and performs no effect at all — in particular `save_seen` is never
reached, contradicting the claim that the updated seen-state is persisted
even when delivery fails. -/
theorem delivery_failure_skips_save_cex :
    main_run (fun _ => ["01/01/24 | AAPL | DIVIDENDO ANUNCIADO"])
      (fun _ => Except.error "Faltan TELEGRAM_BOT_TOKEN o TELEGRAM_CHAT_ID.")
      [] "2024-01-01 00:00" =
      ([], some "Faltan TELEGRAM_BOT_TOKEN o TELEGRAM_CHAT_ID.") := by
  decide

/-- C1 amended: `save_seen` runs exactly when the run completes without an
uncaught exception: the saved-state event is recorded iff no exception
escapes; when the composition is none the run saves without sending; when a
message is composed and the send raises, the run aborts with that exception
and nothing — in particular no save — happens; when the send succeeds the
message is delivered and then the state is saved. -/
theorem save_skipped_on_send_failure (fetch : String → List String)
    (send : String → Except String Unit) (seen0 : SeenDict) (now : String) :
    (Event.saved (processSources fetch seen0).1 ∈ (main_run fetch send seen0 now).1 ↔
      (main_run fetch send seen0 now).2 = none) ∧
    (build_multi_source_message (processSources fetch seen0).2 now = none →
      main_run fetch send seen0 now =
        ([Event.saved (processSources fetch seen0).1], none)) ∧
    (∀ m e : String,
      build_multi_source_message (processSources fetch seen0).2 now = some m →
      send m = .error e → main_run fetch send seen0 now = ([], some e)) ∧
    (∀ m : String,
      build_multi_source_message (processSources fetch seen0).2 now = some m →
      send m = .ok () → main_run fetch send seen0 now =
        ([Event.sent m, Event.saved (processSources fetch seen0).1], none)) := by
  refine ⟨?_, main_run_none fetch send seen0 now,
    fun m e hm he => main_run_send_error fetch send seen0 now m e hm he,
    fun m hm he => main_run_send_ok fetch send seen0 now m hm he⟩
  rw [main_run_eq]
  cases hb : build_multi_source_message (processSources fetch seen0).2 now with
  | none => simp
  | some m =>
    cases hs : send m with
    | error e => simp [hs]
    | ok u => simp [hs]

/-- C1 amended witness: with every fetch empty, the composition is none and
the run saves the (unchanged) state. -/
theorem save_skipped_on_send_failure_witness :
    main_run (fun _ => []) (fun _ => .ok ()) [] "t" =
      ([Event.saved (processSources (fun _ => []) []).1], none) :=
  (save_skipped_on_send_failure (fun _ => []) (fun _ => .ok ()) [] "t").2.1 (by decide)

theorem classify_cat_cases (d : String) :
    (classify_event d).1 = "💰 Dividendos" ∨
    (classify_event d).1 = "⚙️ Cambios corporativos" ∨
    (classify_event d).1 = "🏗 Ampliaciones" ∨
    (classify_event d).1 = "📝 Información relevante" ∨
    (classify_event d).1 = "📌 Otros" := by
  simp only [classify_event]
  split_ifs <;> simp

theorem keylist_weaken (os ks : List (String × String)) (key : String × String)
    (hsub : ∀ k ∈ ks, k ∈ os) : ∀ k ∈ ks, k ∈ key :: os :=
  fun k hk => List.mem_cons_of_mem key (hsub k hk)

theorem keylist_extend (os ks : List (String × String)) (key : String × String)
    (hnd : ks.Nodup) (hsub : ∀ k ∈ ks, k ∈ os) (hfresh : key ∉ os) :
    (ks ++ [key]).Nodup ∧ ∀ k ∈ ks ++ [key], k ∈ key :: os := by
  constructor
  · rw [List.nodup_append]
    refine ⟨hnd, List.nodup_singleton key, ?_⟩
    intro a ha hb
    rw [List.mem_singleton] at hb
    exact hfresh (hb ▸ hsub a ha)
  · intro k hk
    rcases List.mem_append.mp hk with h1 | h1
    · exact List.mem_cons_of_mem key (hsub k h1)
    · rw [List.mem_singleton] at h1
      rw [h1]
      exact List.mem_cons_self key os

theorem bmStep_inv_other (st : BMState) (ticker lab C : String)
    (hC : C ≠ "💰 Dividendos") (hfresh : (ticker, lab) ∉ st.other_seen)
    (h : BMInv st) :
    BMInv ⟨st.div_seen, (ticker, lab) :: st.other_seen,
           st.buckets.push C ("• " ++ ticker ++ " – " ++ lab)⟩ := by
  obtain ⟨⟨ts, hts, htsnd, htsub⟩, ⟨kc, hkc, hkcnd, hkcsub⟩, ⟨ka, hka, hkand, hkasub⟩,
    ⟨ki, hki, hkind, hkisub⟩, ⟨ko, hko, hkond, hkosub⟩⟩ := h
  have hbul : ("• " ++ ticker ++ " – " ++ lab) = othBullet (ticker, lab) := rfl
  by_cases h1 : C = "⚙️ Cambios corporativos"
  · obtain ⟨hnd, hsub⟩ := keylist_extend st.other_seen kc (ticker, lab) hkcnd hkcsub hfresh
    refine ⟨⟨ts, by simp [Buckets.push, hC, h1, hts], htsnd, htsub⟩,
      ⟨kc ++ [(ticker, lab)], by simp [Buckets.push, hC, h1, hkc, hbul], hnd, hsub⟩,
      ⟨ka, by simp [Buckets.push, hC, h1, hka], hkand,
        keylist_weaken _ _ _ hkasub⟩,
      ⟨ki, by simp [Buckets.push, hC, h1, hki], hkind,
        keylist_weaken _ _ _ hkisub⟩,
      ⟨ko, by simp [Buckets.push, hC, h1, hko], hkond,
        keylist_weaken _ _ _ hkosub⟩⟩
  by_cases h2 : C = "🏗 Ampliaciones"
  · obtain ⟨hnd, hsub⟩ := keylist_extend st.other_seen ka (ticker, lab) hkand hkasub hfresh
    refine ⟨⟨ts, by simp [Buckets.push, hC, h1, h2, hts], htsnd, htsub⟩,
      ⟨kc, by simp [Buckets.push, hC, h1, h2, hkc], hkcnd,
        keylist_weaken _ _ _ hkcsub⟩,
      ⟨ka ++ [(ticker, lab)], by simp [Buckets.push, hC, h1, h2, hka, hbul], hnd, hsub⟩,
      ⟨ki, by simp [Buckets.push, hC, h1, h2, hki], hkind,
        keylist_weaken _ _ _ hkisub⟩,
      ⟨ko, by simp [Buckets.push, hC, h1, h2, hko], hkond,
        keylist_weaken _ _ _ hkosub⟩⟩
  by_cases h3 : C = "📝 Información relevante"
  · obtain ⟨hnd, hsub⟩ := keylist_extend st.other_seen ki (ticker, lab) hkind hkisub hfresh
    refine ⟨⟨ts, by simp [Buckets.push, hC, h1, h2, h3, hts], htsnd, htsub⟩,
      ⟨kc, by simp [Buckets.push, hC, h1, h2, h3, hkc], hkcnd,
        keylist_weaken _ _ _ hkcsub⟩,
      ⟨ka, by simp [Buckets.push, hC, h1, h2, h3, hka], hkand,
        keylist_weaken _ _ _ hkasub⟩,
      ⟨ki ++ [(ticker, lab)], by simp [Buckets.push, hC, h1, h2, h3, hki, hbul], hnd, hsub⟩,
      ⟨ko, by simp [Buckets.push, hC, h1, h2, h3, hko], hkond,
        keylist_weaken _ _ _ hkosub⟩⟩
  · obtain ⟨hnd, hsub⟩ := keylist_extend st.other_seen ko (ticker, lab) hkond hkosub hfresh
    refine ⟨⟨ts, by simp [Buckets.push, hC, h1, h2, h3, hts], htsnd, htsub⟩,
      ⟨kc, by simp [Buckets.push, hC, h1, h2, h3, hkc], hkcnd,
        keylist_weaken _ _ _ hkcsub⟩,
      ⟨ka, by simp [Buckets.push, hC, h1, h2, h3, hka], hkand,
        keylist_weaken _ _ _ hkasub⟩,
      ⟨ki, by simp [Buckets.push, hC, h1, h2, h3, hki], hkind,
        keylist_weaken _ _ _ hkisub⟩,
      ⟨ko ++ [(ticker, lab)], by simp [Buckets.push, hC, h1, h2, h3, hko, hbul], hnd, hsub⟩⟩

theorem bmStep_inv (st : BMState) (row : String) (h : BMInv st) :
    BMInv (bmStep st row) := by
  simp only [bmStep]
  by_cases ht : (parse_row row).2.1 = ""
  · rw [if_pos ht]
    exact h
  · rw [if_neg ht]
    by_cases hcat : (classify_event (parse_row row).2.2).1 = "💰 Dividendos"
    · rw [if_pos hcat]
      by_cases hseen : (parse_row row).2.1 ∈ st.div_seen
      · rw [if_pos hseen]
        exact h
      · rw [if_neg hseen]
        obtain ⟨⟨ts, hts, htsnd, htsub⟩, ⟨kc, hkc, hkcnd, hkcsub⟩,
          ⟨ka, hka, hkand, hkasub⟩, ⟨ki, hki, hkind, hkisub⟩,
          ⟨ko, hko, hkond, hkosub⟩⟩ := h
        refine ⟨⟨ts ++ [(parse_row row).2.1], ?_, ?_, ?_⟩,
          ⟨kc, by simp [Buckets.push, hcat, hkc], hkcnd, hkcsub⟩,
          ⟨ka, by simp [Buckets.push, hcat, hka], hkand, hkasub⟩,
          ⟨ki, by simp [Buckets.push, hcat, hki], hkind, hkisub⟩,
          ⟨ko, by simp [Buckets.push, hcat, hko], hkond, hkosub⟩⟩
        · simp [Buckets.push, hcat, hts, divBullet]
        · rw [List.nodup_append]
          refine ⟨htsnd, List.nodup_singleton _, ?_⟩
          intro a ha hb
          rw [List.mem_singleton] at hb
          exact hseen (hb ▸ htsub a ha)
        · intro x hx
          rcases List.mem_append.mp hx with h1 | h1
          · exact List.mem_cons_of_mem _ (htsub x h1)
          · rw [List.mem_singleton] at h1
            rw [h1]
            exact List.mem_cons_self _ _
    · rw [if_neg hcat]
      by_cases hseen :
          ((parse_row row).2.1, ((classify_event (parse_row row).2.2).2).getD "Evento")
            ∈ st.other_seen
      · rw [if_pos hseen]
        exact h
      · rw [if_neg hseen]
        exact bmStep_inv_other st (parse_row row).2.1
          (((classify_event (parse_row row).2.2).2).getD "Evento")
          (classify_event (parse_row row).2.2).1 hcat hseen h

theorem foldl_bmStep_inv (rows : List String) (st : BMState) (h : BMInv st) :
    BMInv (rows.foldl bmStep st) := by
  induction rows generalizing st with
  | nil => exact h
  | cons r rest ih => exact ih (bmStep st r) (bmStep_inv st r h)

theorem buildBuckets_inv (new_items : List String) : BMInv (buildBuckets new_items) := by
  apply foldl_bmStep_inv
  exact ⟨⟨[], rfl, List.nodup_nil, fun t ht => absurd ht (List.not_mem_nil t)⟩,
    ⟨[], rfl, List.nodup_nil, fun k hk => absurd hk (List.not_mem_nil k)⟩,
    ⟨[], rfl, List.nodup_nil, fun k hk => absurd hk (List.not_mem_nil k)⟩,
    ⟨[], rfl, List.nodup_nil, fun k hk => absurd hk (List.not_mem_nil k)⟩,
    ⟨[], rfl, List.nodup_nil, fun k hk => absurd hk (List.not_mem_nil k)⟩⟩

/-- C7: in `build_message`'s bucket-filling loop (`buildBuckets`, the loop
whose result `build_message` renders), the Dividends bucket holds at most one
bullet per distinct ticker and every other category's bucket at most one
bullet per distinct (ticker, label) pair: each bucket is the bullet rendering
of a duplicate-free key list. Concretely, two new rows with the same ticker
both classified as Dividends produce exactly one bullet. -/
theorem build_message_dedup (new_items : List String) :
    (∃ ts : List String, (buildBuckets new_items).buckets.dividendos =
      ts.map divBullet ∧ ts.Nodup) ∧
    (∃ ks : List (String × String), (buildBuckets new_items).buckets.corporativos =
      ks.map othBullet ∧ ks.Nodup) ∧
    (∃ ks : List (String × String), (buildBuckets new_items).buckets.ampliaciones =
      ks.map othBullet ∧ ks.Nodup) ∧
    (∃ ks : List (String × String), (buildBuckets new_items).buckets.info =
      ks.map othBullet ∧ ks.Nodup) ∧
    (∃ ks : List (String × String), (buildBuckets new_items).buckets.otros =
      ks.map othBullet ∧ ks.Nodup) ∧
    (buildBuckets ["02/01/24 | MSFT | DIVIDENDO EXTRAORDINARIO",
      "05/01/24 | MSFT | DIVIDENDO EN EFECTIVO"]).buckets.dividendos = ["• MSFT"] := by
  obtain ⟨⟨ts, h1, h2, _⟩, ⟨kc, h3, h4, _⟩, ⟨ka, h5, h6, _⟩, ⟨ki, h7, h8, _⟩,
    ⟨ko, h9, h10, _⟩⟩ := buildBuckets_inv new_items
  exact ⟨⟨ts, h1, h2⟩, ⟨kc, h3, h4⟩, ⟨ka, h5, h6⟩, ⟨ki, h7, h8⟩, ⟨ko, h9, h10⟩,
    by decide⟩
